import Mathlib

/-!
# Formal model of the Formula-1-Predictions odds pipeline

This file gives a shallow embedding, in Lean 4, of the odds-processing
pipeline of the repository (principally `f1_odds_processor.py`, with the
free-function variants in `quali_bets.py`), and proves or refutes the
behavioural claims made about it.

Modelling conventions:

* Python / numpy floating-point values are modelled by `PFloat`: either a
  rational number, one of the two infinities, or the undefined marker NaN.
  Arithmetic on `PFloat` follows IEEE/numpy semantics on this domain
  (NaN propagates; elementwise division by zero yields NaN or a signed
  infinity, never an exception), with exact rational arithmetic in place
  of binary rounding.
* A pandas cell is a `Cell`: either a string (raw odds quotations, driver
  names) or a float (`Cell.f`); a missing cell is the float NaN.
* A `DF` models a pandas DataFrame as an ordered list of column names
  together with rows of cells.
* Python's `float(str)` conversion is modelled by `pyFloatOfString`:
  whitespace is stripped, an optional sign is read, then either one of
  the named constants `inf` / `infinity` / `nan` (case-insensitively) or
  a decimal literal with optional fractional part and exponent.
  (Digit-group underscores are not modelled.)  Failure (`ValueError`)
  is `none`.
* `raise` is modelled by `Except PyErr`; the constructor of `PyErr`
  records the Python exception class, and its argument the message.
-/

namespace F1Odds

/-- Model of a Python / numpy floating-point value: NaN, a signed
infinity, or a finite value (modelled exactly, as a rational). -/
inductive PFloat where
  | nan : PFloat
  | pinf : PFloat
  | ninf : PFloat
  | val : ℚ → PFloat
deriving DecidableEq, Repr

/-- IEEE addition on `PFloat` (as performed by Python and numpy):
NaN propagates, `inf + (-inf)` is NaN. -/
def padd : PFloat → PFloat → PFloat
  | .nan, _ => .nan
  | _, .nan => .nan
  | .pinf, .ninf => .nan
  | .ninf, .pinf => .nan
  | .pinf, _ => .pinf
  | _, .pinf => .pinf
  | .ninf, _ => .ninf
  | _, .ninf => .ninf
  | .val a, .val b => .val (a + b)

/-- IEEE multiplication on `PFloat`: NaN propagates, `inf * 0` is NaN. -/
def pmul : PFloat → PFloat → PFloat
  | .nan, _ => .nan
  | _, .nan => .nan
  | .pinf, .pinf => .pinf
  | .pinf, .ninf => .ninf
  | .ninf, .pinf => .ninf
  | .ninf, .ninf => .pinf
  | .pinf, .val b => if 0 < b then .pinf else if b < 0 then .ninf else .nan
  | .val a, .pinf => if 0 < a then .pinf else if a < 0 then .ninf else .nan
  | .ninf, .val b => if 0 < b then .ninf else if b < 0 then .pinf else .nan
  | .val a, .ninf => if 0 < a then .ninf else if a < 0 then .pinf else .nan
  | .val a, .val b => .val (a * b)

/-- IEEE (numpy, elementwise) division on `PFloat`: NaN propagates,
`inf / inf` is NaN, `x / 0` is a signed infinity for `x ≠ 0` and NaN for
`x = 0`, `x / inf = 0`.  (This is the semantics of pandas / numpy
elementwise division, which never raises; the rational model has a
single zero, corresponding to numpy's positive zero.) -/
def pdiv : PFloat → PFloat → PFloat
  | .nan, _ => .nan
  | _, .nan => .nan
  | .pinf, .pinf => .nan
  | .pinf, .ninf => .nan
  | .ninf, .pinf => .nan
  | .ninf, .ninf => .nan
  | .pinf, .val b => if b < 0 then .ninf else .pinf
  | .ninf, .val b => if b < 0 then .pinf else .ninf
  | .val _, .pinf => .val 0
  | .val _, .ninf => .val 0
  | .val a, .val b =>
    if b = 0 then (if a = 0 then .nan else if 0 < a then .pinf else .ninf)
    else .val (a / b)

/-- IEEE comparison `x <= y` on `PFloat`: any comparison against NaN is
false. -/
def ple : PFloat → PFloat → Bool
  | .nan, _ => false
  | _, .nan => false
  | .pinf, .pinf => true
  | .pinf, _ => false
  | .ninf, _ => true
  | .val _, .pinf => true
  | .val _, .ninf => false
  | .val a, .val b => decide (a ≤ b)

/-- The finite values among a list of `PFloat`s, as rationals (NaN and
the infinities are dropped). -/
def finVals : List PFloat → List ℚ :=
  List.filterMap fun v => match v with
    | .val q => some q
    | _ => none

/-- pandas `Series.sum()` with the default `skipna=True`: NaN entries are
skipped, the empty sum is 0, infinities participate. -/
def psum : List PFloat → PFloat
  | [] => .val 0
  | v :: vs => if v = .nan then psum vs else padd v (psum vs)

/-- pandas row mean with `skipna=True` (`DataFrame.mean(axis=1)`):
drop the NaN entries; if none remain the mean is NaN, otherwise it is
the sum of the remaining entries divided by their count. -/
def pmean (vs : List PFloat) : PFloat :=
  let ds := vs.filter fun v => decide (v ≠ .nan)
  if ds.isEmpty then .nan else pdiv (psum vs) (.val ds.length)

/-- A pandas cell: a string or a float.  A missing cell is `Cell.f .nan`. -/
inductive Cell where
  | str : String → Cell
  | f : PFloat → Cell
deriving DecidableEq, Repr

/-- The float carried by a cell; string cells do not occur in the numeric
columns manipulated by the pipeline (theorems about those columns carry
that as a hypothesis), and are mapped to NaN here. -/
def cellFloat : Cell → PFloat
  | .f v => v
  | .str _ => .nan

/- ### Python `float(str)` parsing -/

/-- Python `str.strip` whitespace characters. -/
def isWS (c : Char) : Bool :=
  c = ' ' || c = '\t' || c = '\n' || c = '\r' || c = '\x0b' || c = '\x0c'

/-- Drop leading and trailing whitespace (as `float` does to its input). -/
def trimWS (cs : List Char) : List Char :=
  ((cs.dropWhile isWS).reverse.dropWhile isWS).reverse

/-- Split a leading `+` or `-` sign; returns (isNegative, rest). -/
def splitSign (cs : List Char) : Bool × List Char :=
  match cs with
  | c :: r => if c = '+' then (false, r) else if c = '-' then (true, r) else (false, cs)
  | [] => (false, [])

/-- Longest prefix of decimal digits, and the remainder. -/
def spanDigits : List Char → List Char × List Char
  | [] => ([], [])
  | c :: cs =>
    if c.isDigit then
      let p := spanDigits cs
      (c :: p.1, p.2)
    else ([], c :: cs)

/-- The natural number denoted by a list of decimal digits. -/
def natOfDigits : List Char → ℕ :=
  List.foldl (fun n c => 10 * n + (c.toNat - 48)) 0

/-- Parse the exponent part of a float literal (after the `e`):
an optional sign followed by a non-empty run of digits, which must
consume the whole remaining input. -/
def parseExp (cs : List Char) : Option ℤ :=
  let sp := splitSign cs
  let dp := spanDigits sp.2
  if dp.1.isEmpty || !dp.2.isEmpty then none
  else some (if sp.1 then -(natOfDigits dp.1 : ℤ) else (natOfDigits dp.1 : ℤ))

/-- Parse an unsigned decimal float literal: `digits`, `digits.digits`,
`.digits`, `digits.`, each optionally followed by `e`/`E` and an
exponent; at least one digit must be present in the mantissa. -/
def parseUnsignedDec (cs : List Char) : Option ℚ :=
  let ip := spanDigits cs
  match ip.2 with
  | [] => if ip.1.isEmpty then none else some (natOfDigits ip.1 : ℚ)
  | c :: r2 =>
    if c = '.' then
      let fp := spanDigits r2
      if ip.1.isEmpty && fp.1.isEmpty then none
      else
        let mant : ℚ := (natOfDigits ip.1 : ℚ) +
          (natOfDigits fp.1 : ℚ) / (10 : ℚ) ^ fp.1.length
        match fp.2 with
        | [] => some mant
        | e :: r4 =>
          if e = 'e' || e = 'E' then (parseExp r4).map fun ex => mant * (10 : ℚ) ^ ex
          else none
    else if (c = 'e' || c = 'E') && !ip.1.isEmpty then
      (parseExp r2).map fun ex => (natOfDigits ip.1 : ℚ) * (10 : ℚ) ^ ex
    else none

/-- Model of Python `float(s)` on a character list: strip whitespace,
read an optional sign, then a named constant (`inf`, `infinity`, `nan`,
case-insensitively) or an unsigned decimal literal.  `none` models a
`ValueError`. -/
def pyFloatOfChars (cs : List Char) : Option PFloat :=
  let cs1 := trimWS cs
  if cs1.isEmpty then none
  else
    let sp := splitSign cs1
    let low := sp.2.map Char.toLower
    if low = ['i', 'n', 'f'] || low = ['i', 'n', 'f', 'i', 'n', 'i', 't', 'y'] then
      some (if sp.1 then .ninf else .pinf)
    else if low = ['n', 'a', 'n'] then some .nan
    else (parseUnsignedDec sp.2).map fun q => .val (if sp.1 then -q else q)

/-- Model of Python `float(s)` on a string. -/
def pyFloatOfString (s : String) : Option PFloat :=
  pyFloatOfChars s.data

/- ### `odds_to_probability` -/

/-- The arithmetic core of `odds_to_probability` after the float
conversion: `if odds <= 0: return np.nan` then `return 1 / (odds + 1)`.
(The division cannot hit a Python `ZeroDivisionError`: the guard has
already removed every value `d` with `d + 1 ≤ 1 ≤ 0 + 1`, i.e. every
non-positive `d`.) -/
def oddsCore (d : PFloat) : PFloat :=
  if ple d (.val 0) then .nan
  else pdiv (.val 1) (padd d (.val 1))

/-- `F1OddsProcessor.odds_to_probability` (identical to the free function
in `quali_bets.py`): return NaN for the literal string `"N/A"` and for a
missing (NaN) value, convert the input with `float(...)`, return NaN on
a conversion error (the bare `except`) or a non-positive value, and
otherwise return `1 / (odds + 1)`. -/
def odds_to_probability (c : Cell) : PFloat :=
  match c with
  | .str s =>
    if s = "N/A" then .nan
    else
      match pyFloatOfString s with
      | none => .nan
      | some d => oddsCore d
  | .f v => if v = .nan then .nan else oddsCore v

/- ### DataFrame model -/

/-- A pandas DataFrame: an ordered list of column names, and rows of
cells (well-formed rows have one cell per column). -/
structure DF where
  cols : List String
  rows : List (List Cell)
deriving DecidableEq, Repr

/-- A DataFrame is well-formed when every row has one cell per column. -/
def DF.WF (df : DF) : Prop :=
  ∀ r ∈ df.rows, r.length = df.cols.length

/-- Position of a column name in a column list (first occurrence). -/
def idxOf? (name : String) : List String → Option ℕ
  | [] => none
  | c :: cs => if c = name then some 0 else (idxOf? name cs).map (· + 1)

/-- Column selection `df[name]`: the cells of the named column, or
`none` when the column is absent (pandas raises `KeyError`). -/
def getCol (df : DF) (name : String) : Option (List Cell) :=
  (idxOf? name df.cols).map fun i => df.rows.map fun r => r.getD i (.f .nan)

/-- Column selection defaulting to the empty column (used only where the
column is known to be present). -/
def colD (df : DF) (name : String) : List Cell :=
  (getCol df name).getD []

/-- The cell of row `r` in the named column of `df`. -/
def cellAtCol (df : DF) (r : List Cell) (name : String) : Cell :=
  match idxOf? name df.cols with
  | some i => r.getD i (.f .nan)
  | none => .f .nan

/-- Column assignment `df[name] = c`: overwrite the column in place when
the name exists, otherwise append a new column on the right (pandas
semantics).  `c` always has one entry per row at every use site. -/
def setCol (df : DF) (name : String) (c : List Cell) : DF :=
  match idxOf? name df.cols with
  | some i => { cols := df.cols, rows := List.zipWith (fun r v => r.set i v) df.rows c }
  | none => { cols := df.cols ++ [name], rows := List.zipWith (fun r v => r ++ [v]) df.rows c }

/- ### The derived-column transforms -/

/-- Structural prefix test on character lists. -/
def isPrefixCh : List Char → List Char → Bool
  | [], _ => true
  | _ :: _, [] => false
  | c :: cs, d :: ds => c = d && isPrefixCh cs ds

/-- Python `str.endswith(suffix)`: the suffix test, structurally on the
characters. -/
def strEndsWith (s suffix : String) : Bool :=
  isPrefixCh suffix.data.reverse s.data.reverse

/-- The columns whose name ends in `_probability` (the per-provider
probability columns at the pipeline stage where averaging runs). -/
def probColsOf (df : DF) : List String :=
  df.cols.filter fun c => strEndsWith c "_probability"

/-- The float values of one row in the `_probability` columns. -/
def rowProbFloats (df : DF) (r : List Cell) : List PFloat :=
  (probColsOf df).map fun cname => cellFloat (cellAtCol df r cname)

/-- `df['average_probability'] = df[probability_columns].mean(axis=1,
skipna=True)` — the shared core of
`F1OddsProcessor.calculate_average_probabilities` and
`quali_bets.calculate_average_probabilities`. -/
def dfWithAverage (df : DF) : DF :=
  setCol df "average_probability"
    (df.rows.map fun r => .f (pmean (rowProbFloats df r)))

/-- The float values of the `average_probability` column. -/
def avgFloats (df : DF) : List PFloat :=
  (colD df "average_probability").map cellFloat

/-- `total_prob = df['average_probability'].sum()` followed by
`df['normalized_probability'] = (df['average_probability'] / total_prob)
* 100` — the shared core of `F1OddsProcessor.normalize_probabilities`
and `quali_bets.normalize_probabilities` (elementwise numpy division:
a zero total yields NaN or a signed infinity, never an exception). -/
def dfWithNormalized (df : DF) : DF :=
  let vs := avgFloats df
  let total := psum vs
  setCol df "normalized_probability"
    (vs.map fun v => .f (pmul (pdiv v total) (.val 100)))

/-- The float values of the `normalized_probability` column. -/
def normFloats (df : DF) : List PFloat :=
  (colD df "normalized_probability").map cellFloat

/- ### The processor class -/

/-- A raised Python exception: the constructor records the exception
class, the argument its message. -/
inductive PyErr where
  | fileNotFound : String → PyErr
  | valueError : String → PyErr
  | keyError : String → PyErr
deriving DecidableEq, Repr

/-- The state of an `F1OddsProcessor`: the configuration set in
`__init__`, the loaded table `self.df` (`None` until
`process_betting_odds` runs), and `self.game_odds` (the empty dict until
`set_game_odds` runs).  Directory creation is external I/O and is not
modelled. -/
structure Processor where
  data_dir : String
  year : ℕ
  df : Option DF
  game_odds : List (String × ℚ)
deriving DecidableEq, Repr

/-- `F1OddsProcessor.__init__` with a loaded configuration: no table,
empty game odds. -/
def Processor.init (data_dir : String) (year : ℕ) : Processor :=
  { data_dir := data_dir, year := year, df := none, game_odds := [] }

/-- `F1OddsProcessor.set_game_odds`: store the supplied dictionary. -/
def set_game_odds (p : Processor) (odds : List (String × ℚ)) : Processor :=
  { p with game_odds := odds }

/-- The path `self.year_dir / race / f"{category}_odds.csv"` built by
`process_betting_odds`. -/
def oddsFilePath (p : Processor) (race category : String) : String :=
  p.data_dir ++ "/" ++ toString p.year ++ "/" ++ race ++ "/" ++ category ++ "_odds.csv"

/-- Dictionary lookup used by `pd.Series.map`: a string value is looked
up in the dict (NaN when absent); a float value (e.g. NaN) is never a
key of the string-keyed dict and maps to NaN. -/
def mapLookupCell (odds : List (String × ℚ)) (c : Cell) : PFloat :=
  match c with
  | .str s =>
    match odds.lookup s with
    | some q => .val q
    | none => .nan
  | .f _ => .nan

/-- `F1OddsProcessor.process_betting_odds`: raise `FileNotFoundError`
when the referenced odds file is absent; otherwise load the table
(`file` is the parsed content of the CSV, CSV byte-level I/O being out
of scope), append one `<provider>_probability` column per non-`Driver`
column, store the table in `self.df` and return it. -/
def process_betting_odds (p : Processor) (race category : String)
    (file : Option DF) : Except PyErr (Processor × DF) :=
  match file with
  | none => .error (.fileNotFound ("Odds file not found: " ++ oddsFilePath p race category))
  | some df0 =>
    let providers := df0.cols.filter fun c => decide (c ≠ "Driver")
    let df := providers.foldl
      (fun d prov =>
        setCol d (prov ++ "_probability")
          ((colD d prov).map fun c => .f (odds_to_probability c)))
      df0
    .ok ({ p with df := some df }, df)

/-- `F1OddsProcessor.calculate_average_probabilities`: raise
`ValueError` when no table is loaded, otherwise add the
`average_probability` column (row mean of the `_probability` columns,
skipping NaN) to `self.df` and return the table. -/
def calculate_average_probabilities (p : Processor) : Except PyErr (Processor × DF) :=
  match p.df with
  | none => .error (.valueError "No data loaded. Call process_betting_odds first.")
  | some df =>
    let dfA := dfWithAverage df
    .ok ({ p with df := some dfA }, dfA)

/-- `F1OddsProcessor.normalize_probabilities`: raise `ValueError` when
no table is loaded; compute the average column first when it is absent;
then add the `normalized_probability` column (average divided by the
skipna column sum, times 100) to `self.df` and return the table. -/
def normalize_probabilities (p : Processor) : Except PyErr (Processor × DF) :=
  match p.df with
  | none => .error (.valueError "No data loaded. Call process_betting_odds first.")
  | some df =>
    let df1 := if "average_probability" ∈ df.cols then df else dfWithAverage df
    let df2 := dfWithNormalized df1
    .ok ({ p with df := some df2 }, df2)

/- ### Sorting (`sort_values`) -/

/-- Strict "greater" on non-NaN floats (comparisons against NaN are
false, matching IEEE). -/
def pgt : PFloat → PFloat → Bool
  | .nan, _ => false
  | _, .nan => false
  | .pinf, .pinf => false
  | .pinf, _ => true
  | .ninf, _ => false
  | .val _, .pinf => false
  | .val _, .ninf => true
  | .val a, .val b => decide (b < a)

/-- Insert a keyed row into a descending-sorted list, after any row with
an equal key. -/
def insertDescRow (x : PFloat × List Cell) :
    List (PFloat × List Cell) → List (PFloat × List Cell)
  | [] => [x]
  | y :: ys => if pgt y.1 x.1 then y :: insertDescRow x ys else x :: y :: ys

/-- Insertion sort, descending by key. -/
def isortDesc : List (PFloat × List Cell) → List (PFloat × List Cell)
  | [] => []
  | x :: xs => insertDescRow x (isortDesc xs)

/-- `self.df.sort_values(by=name, ascending=False)`: rows with a NaN
key are moved to the end (`na_position='last'`) in their original order;
the remaining rows are sorted descending by the key column.  pandas is
called with the default `kind='quicksort'` (numpy introsort), so the
relative order of tied rows is an unspecified implementation detail of
numpy; this model realises one admissible order (a stable sort), and no
theorem below about the source depends on the order of tied rows. -/
def sortDesc (df : DF) (name : String) : DF :=
  let keyed := df.rows.map fun r => (cellFloat (cellAtCol df r name), r)
  let nonnan := keyed.filter fun kv => decide (kv.1 ≠ .nan)
  let nans := keyed.filter fun kv => decide (kv.1 = .nan)
  { cols := df.cols, rows := (isortDesc nonnan ++ nans).map Prod.snd }

/-- `F1OddsProcessor.calculate_expected_points`: raise `ValueError` when
no table is loaded or the game-odds dict is empty; map driver names to
game points (`NaN` for unmapped drivers), multiply by the normalized
probability over 100 into `xPts` (a missing `normalized_probability`
column is a `KeyError`), sort descending by normalized probability,
store and return the table. -/
def calculate_expected_points (p : Processor)
    (pointsCol : String := "game_points") : Except PyErr (Processor × DF) :=
  match p.df with
  | none => .error (.valueError "No data loaded. Call process_betting_odds first.")
  | some df =>
    if p.game_odds = [] then
      .error (.valueError "Game odds not set. Call set_game_odds first.")
    else
      match getCol df "Driver" with
      | none => .error (.keyError "Driver")
      | some driverCells =>
        let df1 := setCol df pointsCol (driverCells.map fun c => .f (mapLookupCell p.game_odds c))
        match getCol df1 "normalized_probability" with
        | none => .error (.keyError "normalized_probability")
        | some normCells =>
          let ptsCells := colD df1 pointsCol
          let df2 := setCol df1 "xPts"
            (List.zipWith
              (fun nc pc => .f (pdiv (pmul (cellFloat nc) (cellFloat pc)) (.val 100)))
              normCells ptsCells)
          let df3 := sortDesc df2 "normalized_probability"
          .ok ({ p with df := some df3 }, df3)

/-- The dictionary built by `F1OddsProcessor.get_driver_analysis`. -/
structure DriverAnalysis where
  driver : String
  normalized_probability : PFloat
  expected_points : Option PFloat
  game_odds : Option ℚ
  provider_probabilities : List (String × PFloat)
deriving DecidableEq, Repr

/-- Row-level equality test `df['Driver'] == driver_name`: a string cell
compares by string equality, a float cell is never equal to a string. -/
def cellEqStr (c : Cell) (s : String) : Bool :=
  match c with
  | .str t => t = s
  | .f _ => false

/-- `F1OddsProcessor.get_driver_analysis`: raise `ValueError` when no
table is loaded; filter the rows whose `Driver` equals the given name
(a missing `Driver` column is a `KeyError`); raise `ValueError` when no
row matches; otherwise build the analysis dictionary from the first
matching row (a missing `normalized_probability` column is a
`KeyError`; `xPts` is optional). -/
def get_driver_analysis (p : Processor) (name : String) :
    Except PyErr DriverAnalysis :=
  match p.df with
  | none => .error (.valueError "No data loaded. Process betting odds first.")
  | some df =>
    match idxOf? "Driver" df.cols with
    | none => .error (.keyError "Driver")
    | some i =>
      match df.rows.filter (fun r => cellEqStr (r.getD i (.f .nan)) name) with
      | [] => .error (.valueError ("Driver " ++ name ++ " not found in data"))
      | r0 :: _ =>
        match idxOf? "normalized_probability" df.cols with
        | none => .error (.keyError "normalized_probability")
        | some j =>
          .ok
            { driver := name
              normalized_probability := cellFloat (r0.getD j (.f .nan))
              expected_points :=
                match idxOf? "xPts" df.cols with
                | some k => some (cellFloat (r0.getD k (.f .nan)))
                | none => none
              game_odds := p.game_odds.lookup name
              provider_probabilities :=
                (df.cols.filter fun c =>
                    strEndsWith c "_probability" && decide (c ≠ "normalized_probability")).map
                  fun c => (c.replace "_probability" "", cellFloat (cellAtCol df r0 c)) }

/-- `F1OddsProcessor.get_top_drivers`: raise `ValueError` when no table
is loaded; return `self.df.head(n)[['Driver', 'normalized_probability',
'xPts']]` — the first `n` rows projected to the three columns (pandas
raises `KeyError` when any of the three is absent; `head` never does,
whatever `n`). -/
def get_top_drivers (p : Processor) (n : ℕ) : Except PyErr DF :=
  match p.df with
  | none => .error (.valueError "No data loaded. Process betting odds first.")
  | some df =>
    match idxOf? "Driver" df.cols, idxOf? "normalized_probability" df.cols,
        idxOf? "xPts" df.cols with
    | some i, some j, some k =>
      .ok { cols := ["Driver", "normalized_probability", "xPts"],
            rows := (df.rows.take n).map fun r =>
              [r.getD i (.f .nan), r.getD j (.f .nan), r.getD k (.f .nan)] }
    | _, _, _ => .error (.keyError "columns not in index")

/- ### The heap model of Python object mutation

The free functions of `quali_bets.py` receive a DataFrame by object
reference and assign new columns into it (`df['average_probability'] =
...`), which mutates the caller's object in place; the same reference is
then returned.  To state claims about aliasing and in-place mutation we
model the heap explicitly: a heap is a list of DataFrame objects, a
reference an index into it. -/

/-- Read the object a reference points to. -/
def heapRead (h : List DF) (r : ℕ) : DF := h.getD r ⟨[], []⟩

/-- Overwrite the object a reference points to (in-place mutation). -/
def heapWrite (h : List DF) (r : ℕ) (df : DF) : List DF := h.set r df

/-- `quali_bets.calculate_average_probabilities(df)`: the column
assignment mutates the referenced DataFrame in place, and the function
returns the very reference it was given. -/
def qbCalculateAverageProbabilitiesRef (h : List DF) (r : ℕ) : List DF × ℕ :=
  (heapWrite h r (dfWithAverage (heapRead h r)), r)

/-- `quali_bets.normalize_probabilities(df)`: reading a missing
`average_probability` column is a `KeyError`; otherwise the column
assignment mutates the referenced DataFrame in place and the function
returns the reference it was given. -/
def qbNormalizeProbabilitiesRef (h : List DF) (r : ℕ) :
    List DF × Except PyErr ℕ :=
  let df := heapRead h r
  match getCol df "average_probability" with
  | none => (h, .error (.keyError "average_probability"))
  | some _ => (heapWrite h r (dfWithNormalized df), .ok r)

/- ### Lemmas on the `float(str)` parser -/

theorem mem_dropWhile_of_neg {p : Char → Bool} :
    ∀ {l : List Char} {c : Char}, c ∈ l → p c = false → c ∈ l.dropWhile p := by
  intro l
  induction l with
  | nil => intro c h; cases h
  | cons a r ih =>
    intro c hc hp
    rw [List.dropWhile_cons]
    by_cases ha : p a = true
    · simp only [ha, if_true]
      rcases List.mem_cons.mp hc with rfl | hr
      · rw [hp] at ha; cases ha
      · exact ih hr hp
    · simp only [ha, if_false]
      exact hc

theorem mem_trimWS {cs : List Char} {c : Char} (hc : c ∈ cs)
    (hw : isWS c = false) : c ∈ trimWS cs := by
  unfold trimWS
  rw [List.mem_reverse]
  exact mem_dropWhile_of_neg (List.mem_reverse.mpr (mem_dropWhile_of_neg hc hw)) hw

theorem mem_splitSign_snd {cs : List Char} {c : Char} (hc : c ∈ cs)
    (hp : c ≠ '+') (hm : c ≠ '-') : c ∈ (splitSign cs).2 := by
  cases cs with
  | nil => cases hc
  | cons a r =>
    unfold splitSign
    by_cases hap : a = '+'
    · simp only [hap, if_true]
      rcases List.mem_cons.mp hc with rfl | hr
      · exact absurd hap hp
      · exact hr
    · by_cases ham : a = '-'
      · simp only [hap, if_false, ham, if_true]
        rcases List.mem_cons.mp hc with rfl | hr
        · exact absurd ham hm
        · exact hr
      · simp only [hap, if_false, ham]
        exact hc

theorem mem_spanDigits_snd :
    ∀ {cs : List Char} {c : Char}, c ∈ cs → c.isDigit = false →
      c ∈ (spanDigits cs).2 := by
  intro cs
  induction cs with
  | nil => intro c h; cases h
  | cons a r ih =>
    intro c hc hd
    unfold spanDigits
    by_cases ha : a.isDigit = true
    · simp only [ha, if_true]
      rcases List.mem_cons.mp hc with rfl | hr
      · rw [hd] at ha; cases ha
      · exact ih hr hd
    · simp only [ha, if_false]
      exact hc

theorem parseExp_slash {cs : List Char} (h : '/' ∈ cs) : parseExp cs = none := by
  have h1 : '/' ∈ (splitSign cs).2 := mem_splitSign_snd h (by decide) (by decide)
  have h2 : '/' ∈ (spanDigits (splitSign cs).2).2 := mem_spanDigits_snd h1 (by decide)
  have h3 : (spanDigits (splitSign cs).2).2.isEmpty = false := by
    cases hd : (spanDigits (splitSign cs).2).2 with
    | nil => rw [hd] at h2; cases h2
    | cons x xs => rfl
  unfold parseExp
  simp only [h3, Bool.not_false, Bool.or_true, if_true]

theorem parseUnsignedDec_slash {cs : List Char} (h : '/' ∈ cs) :
    parseUnsignedDec cs = none := by
  have h2 : '/' ∈ (spanDigits cs).2 := mem_spanDigits_snd h (by decide)
  cases hd : (spanDigits cs).2 with
  | nil => rw [hd] at h2; cases h2
  | cons c r2 =>
    rw [hd] at h2
    rcases List.mem_cons.mp h2 with rfl | hr
    · simp [parseUnsignedDec, hd]
    · by_cases hc : c = '.'
      · subst hc
        have hfr : '/' ∈ (spanDigits r2).2 := mem_spanDigits_snd hr (by decide)
        cases hfd : (spanDigits r2).2 with
        | nil => rw [hfd] at hfr; cases hfr
        | cons e r4 =>
          rw [hfd] at hfr
          rcases List.mem_cons.mp hfr with rfl | hr4
          · simp [parseUnsignedDec, hd, hfd]
          · by_cases he : (e = 'e' || e = 'E') = true
            · simp [parseUnsignedDec, hd, hfd, he, parseExp_slash hr4]
            · simp [parseUnsignedDec, hd, hfd, he]
      · by_cases he : (c = 'e' || c = 'E') = true
        · simp [parseUnsignedDec, hd, hc, he, parseExp_slash hr]
        · simp [parseUnsignedDec, hd, hc, he]

theorem pyFloatOfChars_slash {cs : List Char} (h : '/' ∈ cs) :
    pyFloatOfChars cs = none := by
  have h1 : '/' ∈ trimWS cs := mem_trimWS h (by decide)
  have h0 : (trimWS cs).isEmpty = false := by
    cases hd : trimWS cs with
    | nil => rw [hd] at h1; cases h1
    | cons x xs => rfl
  have h2 : '/' ∈ (splitSign (trimWS cs)).2 := mem_splitSign_snd h1 (by decide) (by decide)
  have h3 : '/' ∈ (splitSign (trimWS cs)).2.map Char.toLower := by
    have hl : Char.toLower '/' = '/' := by decide
    rw [← hl]
    exact List.mem_map_of_mem Char.toLower h2
  have hinf : ¬ (splitSign (trimWS cs)).2.map Char.toLower = ['i', 'n', 'f'] := by
    intro he; rw [he] at h3; revert h3; decide
  have hinfy : ¬ (splitSign (trimWS cs)).2.map Char.toLower
      = ['i', 'n', 'f', 'i', 'n', 'i', 't', 'y'] := by
    intro he; rw [he] at h3; revert h3; decide
  have hnan : ¬ (splitSign (trimWS cs)).2.map Char.toLower = ['n', 'a', 'n'] := by
    intro he; rw [he] at h3; revert h3; decide
  simp [pyFloatOfChars, h0, hinf, hinfy, hnan, parseUnsignedDec_slash h2]

theorem pyFloatOfString_slash {s : String} (h : '/' ∈ s.data) :
    pyFloatOfString s = none :=
  pyFloatOfChars_slash h

/- ### Computation lemmas for the `PFloat` operations -/

@[simp] theorem padd_val (a b : ℚ) : padd (.val a) (.val b) = .val (a + b) := rfl

@[simp] theorem pmul_val (a b : ℚ) : pmul (.val a) (.val b) = .val (a * b) := rfl

@[simp] theorem pdiv_val (a b : ℚ) :
    pdiv (.val a) (.val b) =
      if b = 0 then (if a = 0 then .nan else if 0 < a then .pinf else .ninf)
      else .val (a / b) := rfl

@[simp] theorem ple_val (a b : ℚ) : ple (.val a) (.val b) = decide (a ≤ b) := rfl

@[simp] theorem padd_nan_left (v : PFloat) : padd .nan v = .nan := by cases v <;> rfl

@[simp] theorem pdiv_nan_left (v : PFloat) : pdiv .nan v = .nan := by cases v <;> rfl

@[simp] theorem pmul_nan_left (v : PFloat) : pmul .nan v = .nan := by cases v <;> rfl

/- ### Lemmas on `oddsCore` -/

theorem oddsCore_pos {q : ℚ} (hq : 0 < q) :
    oddsCore (.val q) = .val (1 / (q + 1)) := by
  have h1 : q + 1 ≠ 0 := by positivity
  simp [oddsCore, hq.not_le, h1]

theorem oddsCore_nonpos {q : ℚ} (hq : q ≤ 0) : oddsCore (.val q) = .nan := by
  simp [oddsCore, hq]

/-- C1 — `odds_to_probability`: a positive finite parsed value `d` maps
to `1 / (d + 1)`, which lies in the open interval (0, 1); a missing
value, the literal `"N/A"`, an unparseable string, and a non-positive
parsed value all map to NaN.  The function is total by construction (the
bare `except` in the source is the `none` branch of the parser), so it
never raises. -/
theorem C1_odds_to_probability_cases :
    (∀ q : ℚ, 0 < q →
      odds_to_probability (Cell.f (PFloat.val q)) = PFloat.val (1 / (q + 1)) ∧
      0 < 1 / (q + 1) ∧ 1 / (q + 1) < 1) ∧
    (∀ (s : String) (q : ℚ), pyFloatOfString s = some (PFloat.val q) → 0 < q →
      odds_to_probability (Cell.str s) = PFloat.val (1 / (q + 1))) ∧
    (∀ q : ℚ, q ≤ 0 → odds_to_probability (Cell.f (PFloat.val q)) = PFloat.nan) ∧
    (∀ (s : String) (q : ℚ), pyFloatOfString s = some (PFloat.val q) → q ≤ 0 →
      odds_to_probability (Cell.str s) = PFloat.nan) ∧
    odds_to_probability (Cell.f PFloat.nan) = PFloat.nan ∧
    odds_to_probability (Cell.str "N/A") = PFloat.nan ∧
    (∀ s : String, pyFloatOfString s = none →
      odds_to_probability (Cell.str s) = PFloat.nan) ∧
    odds_to_probability (Cell.f PFloat.ninf) = PFloat.nan := by
  have hbounds : ∀ q : ℚ, 0 < q → 0 < 1 / (q + 1) ∧ 1 / (q + 1) < 1 := by
    intro q hq
    constructor
    · positivity
    · rw [div_lt_one (by linarith)]
      linarith
  have hstr : ∀ (s : String) (d : PFloat), pyFloatOfString s = some d →
      odds_to_probability (Cell.str s) = oddsCore d := by
    intro s d hparse
    have hsna : s ≠ "N/A" := by
      rintro rfl
      rw [show pyFloatOfString "N/A" = none from by decide] at hparse
      cases hparse
    simp only [odds_to_probability, if_neg hsna, hparse]
  refine ⟨?_, ?_, ?_, ?_, by decide, by decide, ?_, by decide⟩
  · intro q hq
    refine ⟨?_, hbounds q hq⟩
    simp only [odds_to_probability, if_neg (show ¬ PFloat.val q = PFloat.nan by simp),
      oddsCore_pos hq]
  · intro s q hparse hq
    rw [hstr s _ hparse, oddsCore_pos hq]
  · intro q hq
    simp only [odds_to_probability, if_neg (show ¬ PFloat.val q = PFloat.nan by simp),
      oddsCore_nonpos hq]
  · intro s q hparse hq
    rw [hstr s _ hparse, oddsCore_nonpos hq]
  · intro s hparse
    by_cases hsna : s = "N/A"
    · simp only [odds_to_probability, if_pos hsna]
    · simp only [odds_to_probability, if_neg hsna, hparse]

/-- Witness for C1 at concrete inputs: decimal odds 16 (the float cell
and the string both give 1/17), a non-positive value, the sentinel, a
missing cell and an unparseable string. -/
theorem C1_witness :
    odds_to_probability (Cell.f (PFloat.val 16)) = PFloat.val (1 / (16 + 1)) ∧
    odds_to_probability (Cell.str "16") = PFloat.val (1 / ((16 : ℕ) + 1)) ∧
    odds_to_probability (Cell.f (PFloat.val (-3))) = PFloat.nan ∧
    odds_to_probability (Cell.str "N/A") = PFloat.nan ∧
    odds_to_probability (Cell.f PFloat.nan) = PFloat.nan ∧
    odds_to_probability (Cell.str "abc") = PFloat.nan :=
  ⟨(C1_odds_to_probability_cases.1 16 (by norm_num)).1,
   C1_odds_to_probability_cases.2.1 "16" ((16 : ℕ) : ℚ) (by rfl) (by norm_num),
   C1_odds_to_probability_cases.2.2.1 (-3) (by norm_num),
   C1_odds_to_probability_cases.2.2.2.2.2.1,
   C1_odds_to_probability_cases.2.2.2.2.1,
   C1_odds_to_probability_cases.2.2.2.2.2.2.1 "abc" (by decide)⟩

/-- C10 — a fractional odds string of the form `a/b` (the `data-o`
format the `OddsOverview.py` scraper stores, e.g. `"1/16"`) contains a
slash, so `float(...)` fails and `odds_to_probability` returns NaN — not
the probability `b / (a + b)` the fraction would imply. -/
theorem C10_fractional_string_is_nan :
    (∀ s t : String, odds_to_probability (Cell.str (s ++ "/" ++ t)) = PFloat.nan) ∧
    odds_to_probability (Cell.str "1/16") = PFloat.nan ∧
    (∀ a b : ℚ, PFloat.nan ≠ PFloat.val (b / (a + b))) := by
  refine ⟨?_, by decide, fun a b h => by cases h⟩
  intro s t
  have hmem : '/' ∈ (s ++ "/" ++ t).data := by
    rw [String.data_append, String.data_append]
    exact List.mem_append_left _ (List.mem_append_right _ (by decide))
  by_cases hsna : s ++ "/" ++ t = "N/A"
  · simp only [odds_to_probability, if_pos hsna]
  · simp only [odds_to_probability, if_neg hsna, pyFloatOfString_slash hmem]

/- ### Column-lookup lemmas -/

theorem idxOf?_isSome_of_mem {name : String} :
    ∀ {cols : List String}, name ∈ cols → ∃ i, idxOf? name cols = some i := by
  intro cols
  induction cols with
  | nil => intro h; cases h
  | cons c cs ih =>
    intro h
    unfold idxOf?
    by_cases hc : c = name
    · exact ⟨0, by rw [if_pos hc]⟩
    · rcases List.mem_cons.mp h with rfl | hr
      · exact absurd rfl hc
      · obtain ⟨i, hi⟩ := ih hr
        exact ⟨i + 1, by rw [if_neg hc, hi]; rfl⟩

theorem getCol_isSome_of_mem {df : DF} {name : String} (h : name ∈ df.cols) :
    ∃ cells, getCol df name = some cells := by
  obtain ⟨i, hi⟩ := idxOf?_isSome_of_mem h
  exact ⟨_, by rw [getCol, hi]; rfl⟩

theorem mem_setCol_cols {df : DF} {name n : String} {c : List Cell}
    (h : name ∈ df.cols) : name ∈ (setCol df n c).cols := by
  unfold setCol
  cases hio : idxOf? n df.cols with
  | some i => exact h
  | none => exact List.mem_append_left _ h

/- ### C5: in-place mutation of the table passed downstream -/

/-- A one-row processed table (a driver and one provider-probability
column), as produced by `process_betting_odds`. -/
def dfC5 : DF :=
  ⟨["Driver", "B365_probability"], [[.str "Max Verstappen", .f (.val (1 / 2))]]⟩

/-- C5 counterexample — `calculate_average_probabilities` (the
`quali_bets.py` transform, modelled with an explicit heap) does not
return a new derived table leaving its input unchanged: it returns the
very reference it was given, and the object that reference points to
has changed (it gained the `average_probability` column). -/
theorem C5_counterexample :
    (qbCalculateAverageProbabilitiesRef [dfC5] 0).2 = 0 ∧
    heapRead (qbCalculateAverageProbabilitiesRef [dfC5] 0).1 0 ≠ heapRead [dfC5] 0 := by
  refine ⟨rfl, ?_⟩
  intro h
  have h2 := congrArg DF.cols h
  revert h2
  decide

/-- C5 amended — the pipeline transforms do not return fresh tables:
each writes its derived column into the very table object it was given
(mutating it in place to the corresponding derived table) and returns
the same reference. -/
theorem C5_amended_in_place_mutation :
    ∀ (h : List DF) (r : ℕ), r < h.length →
      ((qbCalculateAverageProbabilitiesRef h r).2 = r ∧
        heapRead (qbCalculateAverageProbabilitiesRef h r).1 r
          = dfWithAverage (heapRead h r)) ∧
      (∀ c, getCol (heapRead h r) "average_probability" = some c →
        (qbNormalizeProbabilitiesRef h r).2 = .ok r ∧
          heapRead (qbNormalizeProbabilitiesRef h r).1 r
            = dfWithNormalized (heapRead h r)) := by
  intro h r hr
  have hread : ∀ df : DF, heapRead (heapWrite h r df) r = df := by
    intro df
    unfold heapRead heapWrite
    simp [List.getD, List.getElem?_set_self, hr]
  refine ⟨⟨rfl, hread _⟩, ?_⟩
  intro c hc
  have heq : qbNormalizeProbabilitiesRef h r
      = (heapWrite h r (dfWithNormalized (heapRead h r)), .ok r) := by
    simp only [qbNormalizeProbabilitiesRef]
    rw [hc]
  rw [heq]
  exact ⟨rfl, hread _⟩

/-- A one-row table that already carries an `average_probability`
column. -/
def dfC5n : DF :=
  ⟨["Driver", "average_probability"], [[.str "Max Verstappen", .f (.val 1)]]⟩

/-- Witness for the amended C5 at a concrete heap. -/
theorem C5_amended_witness :
    (qbCalculateAverageProbabilitiesRef [dfC5n] 0).2 = 0 ∧
    (qbNormalizeProbabilitiesRef [dfC5n] 0).2 = .ok 0 :=
  ⟨(C5_amended_in_place_mutation [dfC5n] 0 (by decide)).1.1,
   ((C5_amended_in_place_mutation [dfC5n] 0 (by decide)).2
      [Cell.f (PFloat.val 1)] (by decide)).1⟩

/- ### C6: precondition errors of `calculate_expected_points` -/

/-- A loaded table that has a `Driver` column but no
`normalized_probability` column (the caller skipped
`normalize_probabilities`). -/
def dfC6 : DF := ⟨["Driver"], [[.str "Lando Norris"]]⟩

/-- A processor with that table loaded and a non-empty game-odds map. -/
def pC6 : Processor := ⟨"data", 2025, some dfC6, [("Lando Norris", 10)]⟩

/-- C6 counterexample — a state in which a table is loaded and a
non-empty game-odds map is set, yet `calculate_expected_points` does not
succeed: reading the absent `normalized_probability` column raises a
`KeyError` (not a configuration `ValueError`). -/
theorem C6_counterexample :
    pC6.df.isSome = true ∧ pC6.game_odds ≠ [] ∧
    calculate_expected_points pC6 "game_points"
      = .error (.keyError "normalized_probability") := by
  refine ⟨rfl, by decide, rfl⟩

/-- C6 amended — `calculate_expected_points` raises the configuration
`ValueError`s exactly when no table is loaded or the game-odds map is
empty; when both preconditions hold it succeeds provided the loaded
table has the `Driver` and `normalized_probability` columns (lacking
the latter, it raises a `KeyError` instead, as the counterexample
shows). -/
theorem C6_amended_config_errors :
    (∀ (p : Processor) (pc : String), p.df = none →
      calculate_expected_points p pc
        = .error (.valueError "No data loaded. Call process_betting_odds first.")) ∧
    (∀ (p : Processor) (df : DF) (pc : String), p.df = some df → p.game_odds = [] →
      calculate_expected_points p pc
        = .error (.valueError "Game odds not set. Call set_game_odds first.")) ∧
    (∀ (p : Processor) (df : DF) (pc : String), p.df = some df → p.game_odds ≠ [] →
      "Driver" ∈ df.cols → "normalized_probability" ∈ df.cols →
      ∃ p2 df2, calculate_expected_points p pc = .ok (p2, df2)) := by
  refine ⟨?_, ?_, ?_⟩
  · intro p pc hdf
    simp only [calculate_expected_points, hdf]
  · intro p df pc hdf hodds
    simp [calculate_expected_points, hdf, hodds]
  · intro p df pc hdf hodds hD hN
    obtain ⟨dcells, hdc⟩ := getCol_isSome_of_mem hD
    obtain ⟨ncells, hnc⟩ := getCol_isSome_of_mem
      (mem_setCol_cols (n := pc)
        (c := dcells.map fun c => .f (mapLookupCell p.game_odds c)) hN)
    simp only [calculate_expected_points, hdf, if_neg hodds, hdc, hnc]
    exact ⟨_, _, rfl⟩

/-- A loaded table with the columns `calculate_expected_points` needs. -/
def dfC6ok : DF :=
  ⟨["Driver", "normalized_probability"],
   [[.str "Max Verstappen", .f (.val 60)], [.str "Lewis Hamilton", .f (.val 40)]]⟩

/-- A processor with that table and a non-empty game-odds map. -/
def pC6ok : Processor := ⟨"data", 2025, some dfC6ok, [("Max Verstappen", 10)]⟩

/-- Witness for the amended C6: the success case at a concrete state,
and the configuration error on a freshly initialised processor. -/
theorem C6_amended_witness :
    (∃ p2 df2, calculate_expected_points pC6ok "game_points" = .ok (p2, df2)) ∧
    calculate_expected_points (Processor.init "data" 2025) "game_points"
      = .error (.valueError "No data loaded. Call process_betting_odds first.") :=
  ⟨C6_amended_config_errors.2.2 pC6ok dfC6ok "game_points" rfl (by decide)
      (by decide) (by decide),
   C6_amended_config_errors.1 (Processor.init "data" 2025) "game_points" rfl⟩

/- ### C7: "not found" errors -/

/-- The first characters of two appended strings: used to separate the
"not found" message from the configuration messages. -/
theorem driver_msg_head (name suffix : String) :
    (("Driver " ++ name ++ suffix).data).getD 0 ' ' = 'D' := by
  rw [String.data_append, String.data_append]
  rfl

/-- C7 — a missing input odds file makes `process_betting_odds` raise
`FileNotFoundError`; a competitor name matching no row makes
`get_driver_analysis` raise the "not found" `ValueError`; and both are
distinguishable by the caller from the configuration errors raised for
missing preconditions (the former by exception class, the latter by the
exception value). -/
theorem C7_not_found_errors :
    (∀ (p : Processor) (race category : String),
      process_betting_odds p race category none
        = .error (.fileNotFound ("Odds file not found: " ++ oddsFilePath p race category))) ∧
    (∀ (p : Processor) (df : DF) (name : String), p.df = some df →
      "Driver" ∈ df.cols →
      (∀ r ∈ df.rows, cellEqStr (cellAtCol df r "Driver") name = false) →
      get_driver_analysis p name
        = .error (.valueError ("Driver " ++ name ++ " not found in data"))) ∧
    (∀ m n : String, PyErr.fileNotFound m ≠ PyErr.valueError n) ∧
    (∀ name : String,
      PyErr.valueError ("Driver " ++ name ++ " not found in data")
        ≠ PyErr.valueError "No data loaded. Process betting odds first." ∧
      PyErr.valueError ("Driver " ++ name ++ " not found in data")
        ≠ PyErr.valueError "No data loaded. Call process_betting_odds first." ∧
      PyErr.valueError ("Driver " ++ name ++ " not found in data")
        ≠ PyErr.valueError "Game odds not set. Call set_game_odds first.") := by
  have hmsg : ∀ (name other : String), other.data.getD 0 ' ' ≠ 'D' →
      PyErr.valueError ("Driver " ++ name ++ " not found in data")
        ≠ PyErr.valueError other := by
    intro name other hother h
    apply hother
    have h2 : ("Driver " ++ name ++ " not found in data") = other := by
      injection h
    rw [← h2]
    exact driver_msg_head name " not found in data"
  refine ⟨fun p race category => rfl, ?_, fun m n h => PyErr.noConfusion h, ?_⟩
  · intro p df name hdf hD hno
    obtain ⟨i, hi⟩ := idxOf?_isSome_of_mem hD
    have hfilter : df.rows.filter (fun r => cellEqStr (r.getD i (.f .nan)) name) = [] := by
      rw [List.filter_eq_nil_iff]
      intro r hr
      have h2 := hno r hr
      simp only [cellAtCol, hi] at h2
      simp only [Bool.not_eq_true]
      simpa using h2
    simp only [get_driver_analysis, hdf, hi, hfilter]
  · intro name
    exact ⟨hmsg name _ (by decide), hmsg name _ (by decide), hmsg name _ (by decide)⟩

/-- A loaded two-row table for the C7 witness. -/
def dfC7 : DF :=
  ⟨["Driver", "normalized_probability"],
   [[.str "Max Verstappen", .f (.val 60)], [.str "Lewis Hamilton", .f (.val 40)]]⟩

/-- A processor with that table loaded. -/
def pC7 : Processor := ⟨"data", 2025, some dfC7, []⟩

/-- Witness for C7 at concrete inputs: the missing file and an unknown
driver name. -/
theorem C7_witness :
    process_betting_odds (Processor.init "data" 2025) "australian-gp" "qualifying" none
      = .error (.fileNotFound "Odds file not found: data/2025/australian-gp/qualifying_odds.csv") ∧
    get_driver_analysis pC7 "Nico Hulkenberg"
      = .error (.valueError "Driver Nico Hulkenberg not found in data") :=
  ⟨C7_not_found_errors.1 (Processor.init "data" 2025) "australian-gp" "qualifying",
   C7_not_found_errors.2.1 pC7 dfC7 "Nico Hulkenberg" rfl (by decide) (by decide)⟩

/- ### C9: `get_top_drivers` -/

/-- A loaded table lacking the `xPts` column. -/
def dfC9 : DF :=
  ⟨["Driver", "normalized_probability"], [[.str "Max Verstappen", .f (.val 60)]]⟩

/-- A processor with that table loaded. -/
def pC9 : Processor := ⟨"data", 2025, some dfC9, []⟩

/-- C9 counterexample — a loaded table on which `get_top_drivers` does
raise: the column projection `[['Driver', 'normalized_probability',
'xPts']]` raises `KeyError` when the `xPts` column is absent (e.g.
whenever `calculate_expected_points` has not run). -/
theorem C9_counterexample :
    pC9.df.isSome = true ∧
    get_top_drivers pC9 5 = .error (.keyError "columns not in index") :=
  ⟨rfl, rfl⟩

/-- The projection of one row to the three reported columns. -/
def topRowProj (df : DF) (r : List Cell) : List Cell :=
  [cellAtCol df r "Driver", cellAtCol df r "normalized_probability",
   cellAtCol df r "xPts"]

/-- C9 amended — for every loaded table that has the `Driver`,
`normalized_probability` and `xPts` columns, `get_top_drivers` returns
(the three-column projection of) the first `n` rows in table order, and
when `n` is at least the number of rows it returns all rows in order,
without raising; a loaded table lacking one of the three columns makes
it raise a `KeyError` instead (as the counterexample shows). -/
theorem C9_amended_top_n :
    ∀ (p : Processor) (df : DF) (n : ℕ), p.df = some df →
      "Driver" ∈ df.cols → "normalized_probability" ∈ df.cols → "xPts" ∈ df.cols →
      ∃ out, get_top_drivers p n = .ok out ∧
        out.rows = (df.rows.take n).map (topRowProj df) ∧
        (df.rows.length ≤ n → out.rows = df.rows.map (topRowProj df)) := by
  intro p df n hdf hD hN hX
  obtain ⟨i, hi⟩ := idxOf?_isSome_of_mem hD
  obtain ⟨j, hj⟩ := idxOf?_isSome_of_mem hN
  obtain ⟨k, hk⟩ := idxOf?_isSome_of_mem hX
  have hproj : topRowProj df = fun r =>
      [r.getD i (.f .nan), r.getD j (.f .nan), r.getD k (.f .nan)] := by
    funext r
    simp only [topRowProj, cellAtCol, hi, hj, hk]
  simp only [get_top_drivers, hdf, hi, hj, hk]
  refine ⟨_, rfl, ?_, ?_⟩
  · rw [hproj]
  · intro hlen
    rw [List.take_of_length_le hlen, hproj]

/-- A loaded table with all three reported columns. -/
def dfC9ok : DF :=
  ⟨["Driver", "normalized_probability", "xPts"],
   [[.str "Max Verstappen", .f (.val 60), .f (.val 6)],
    [.str "Lewis Hamilton", .f (.val 40), .f (.val 2)]]⟩

/-- A processor with that table loaded. -/
def pC9ok : Processor := ⟨"data", 2025, some dfC9ok, []⟩

/-- Witness for the amended C9: `n = 5` exceeds the row count and all
rows come back in order. -/
theorem C9_amended_witness :
    ∃ out, get_top_drivers pC9ok 5 = .ok out ∧
      out.rows = (dfC9ok.rows.take 5).map (topRowProj dfC9ok) ∧
      (dfC9ok.rows.length ≤ 5 → out.rows = dfC9ok.rows.map (topRowProj dfC9ok)) :=
  C9_amended_top_n pC9ok dfC9ok 5 rfl (by decide) (by decide) (by decide)

/- ### Finite-or-NaN columns and their sums and means -/

/-- `true` exactly on the finite (rational) values. -/
def PFloat.finite : PFloat → Bool
  | .val _ => true
  | _ => false

/-- Every entry of the list is NaN or finite (no infinities, no strings
leaked into a numeric column) — the range of values the pipeline's
numeric columns take. -/
def FinOrNaN (vs : List PFloat) : Prop :=
  ∀ v ∈ vs, v = .nan ∨ v.finite = true

instance (vs : List PFloat) : Decidable (FinOrNaN vs) := by
  unfold FinOrNaN; infer_instance

instance (df : DF) : Decidable (DF.WF df) := by
  unfold DF.WF; infer_instance

theorem finite_iff {v : PFloat} : v.finite = true ↔ ∃ q, v = .val q := by
  cases v <;> simp [PFloat.finite]

@[simp] theorem finVals_nil : finVals [] = [] := rfl

@[simp] theorem finVals_cons_nan (vs : List PFloat) :
    finVals (.nan :: vs) = finVals vs := rfl

@[simp] theorem finVals_cons_val (q : ℚ) (vs : List PFloat) :
    finVals (.val q :: vs) = q :: finVals vs := rfl

theorem FinOrNaN.tail {v : PFloat} {vs : List PFloat} (h : FinOrNaN (v :: vs)) :
    FinOrNaN vs :=
  fun w hw => h w (List.mem_cons_of_mem v hw)

/-- On a finite-or-NaN column, the skipna sum is the rational sum of the
finite entries. -/
theorem psum_fin : ∀ {vs : List PFloat}, FinOrNaN vs →
    psum vs = .val (finVals vs).sum := by
  intro vs
  induction vs with
  | nil => intro h; rfl
  | cons v vs ih =>
    intro h
    rcases h v (List.mem_cons_self v vs) with rfl | hfin
    · simpa [psum] using ih h.tail
    · obtain ⟨q, rfl⟩ := finite_iff.mp hfin
      simp [psum, ih h.tail]

theorem length_filter_ne_nan : ∀ {vs : List PFloat}, FinOrNaN vs →
    (vs.filter fun v => decide (v ≠ .nan)).length = (finVals vs).length := by
  intro vs
  induction vs with
  | nil => intro h; rfl
  | cons v vs ih =>
    intro h
    rcases h v (List.mem_cons_self v vs) with rfl | hfin
    · simpa [List.filter_cons] using ih h.tail
    · obtain ⟨q, rfl⟩ := finite_iff.mp hfin
      simpa [List.filter_cons] using ih h.tail

/-- On a finite-or-NaN column, the skipna row mean is the arithmetic
mean of the finite entries, and NaN when there are none. -/
theorem pmean_fin {vs : List PFloat} (h : FinOrNaN vs) :
    pmean vs = if finVals vs = [] then .nan
      else .val ((finVals vs).sum / (finVals vs).length) := by
  simp only [pmean]
  by_cases hnil : finVals vs = []
  · rw [if_pos hnil]
    have hflen : (vs.filter fun v => decide (v ≠ .nan)).length = 0 := by
      rw [length_filter_ne_nan h, hnil]; rfl
    have hfe : (vs.filter fun v => decide (v ≠ .nan)) = [] :=
      List.length_eq_zero.mp hflen
    rw [hfe]
    rfl
  · rw [if_neg hnil]
    have hlz : (finVals vs).length ≠ 0 := by
      intro h0; exact hnil (List.length_eq_zero.mp h0)
    have hne : (vs.filter fun v => decide (v ≠ .nan)).isEmpty = false := by
      cases hf : vs.filter fun v => decide (v ≠ .nan) with
      | nil =>
        exfalso
        apply hlz
        rw [← length_filter_ne_nan h, hf]
        rfl
      | cons a l => rfl
    rw [hne]
    simp only [Bool.false_eq_true, if_false]
    rw [psum_fin h, length_filter_ne_nan h, pdiv_val,
      if_neg (by exact_mod_cast hlz : ¬ ((finVals vs).length : ℚ) = 0)]

/- ### Reading a column back after a column assignment -/

theorem idxOf?_lt_length {name : String} :
    ∀ {cols : List String} {i : ℕ}, idxOf? name cols = some i → i < cols.length := by
  intro cols
  induction cols with
  | nil => intro i h; cases h
  | cons c cs ih =>
    intro i h
    unfold idxOf? at h
    by_cases hc : c = name
    · rw [if_pos hc] at h
      cases h
      simp
    · rw [if_neg hc] at h
      cases hio : idxOf? name cs with
      | none => rw [hio] at h; cases h
      | some j =>
        rw [hio] at h
        cases h
        simpa using Nat.succ_lt_succ (ih hio)

theorem idxOf?_append_self {name : String} :
    ∀ {cols : List String}, idxOf? name cols = none →
      idxOf? name (cols ++ [name]) = some cols.length := by
  intro cols
  induction cols with
  | nil => intro h; simp [idxOf?]
  | cons c cs ih =>
    intro h
    rw [List.cons_append]
    simp only [idxOf?] at h ⊢
    by_cases hc : c = name
    · rw [if_pos hc] at h; cases h
    · rw [if_neg hc] at h ⊢
      have hio : idxOf? name cs = none := by
        cases hio2 : idxOf? name cs with
        | none => rfl
        | some j => rw [hio2] at h; cases h
      rw [ih hio]
      rfl

theorem map_getD_zipWith_set {i : ℕ} {d : Cell} :
    ∀ (rows : List (List Cell)) (c : List Cell), rows.length = c.length →
      (∀ r ∈ rows, i < r.length) →
      (List.zipWith (fun r v => r.set i v) rows c).map (fun r => r.getD i d) = c := by
  intro rows
  induction rows with
  | nil =>
    intro c hlen hbound
    cases c with
    | nil => rfl
    | cons a l => cases hlen
  | cons r rows ih =>
    intro c hlen hbound
    cases c with
    | nil => cases hlen
    | cons v cv =>
      simp only [List.zipWith_cons_cons, List.map_cons]
      congr 1
      · have hb := hbound r (List.mem_cons_self r rows)
        simp [List.getD, List.getElem?_set_self, hb]
      · exact ih cv (by simpa using hlen)
          (fun r2 h2 => hbound r2 (List.mem_cons_of_mem r h2))

theorem map_getD_zipWith_append {L : ℕ} {d : Cell} :
    ∀ (rows : List (List Cell)) (c : List Cell), rows.length = c.length →
      (∀ r ∈ rows, r.length = L) →
      (List.zipWith (fun r v => r ++ [v]) rows c).map (fun r => r.getD L d) = c := by
  intro rows
  induction rows with
  | nil =>
    intro c hlen hbound
    cases c with
    | nil => rfl
    | cons a l => cases hlen
  | cons r rows ih =>
    intro c hlen hbound
    cases c with
    | nil => cases hlen
    | cons v cv =>
      simp only [List.zipWith_cons_cons, List.map_cons]
      congr 1
      · have hb := hbound r (List.mem_cons_self r rows)
        rw [← hb]
        simp [List.getD, List.getElem?_concat_length]
      · exact ih cv (by simpa using hlen)
          (fun r2 h2 => hbound r2 (List.mem_cons_of_mem r h2))

/-- Reading back the column just assigned returns the assigned cells
(whether the assignment overwrote an existing column or appended a new
one). -/
theorem getCol_setCol {df : DF} {name : String} {c : List Cell}
    (hwf : DF.WF df) (hlen : c.length = df.rows.length) :
    getCol (setCol df name c) name = some c := by
  unfold setCol
  cases hio : idxOf? name df.cols with
  | some i =>
    have hi : i < df.cols.length := idxOf?_lt_length hio
    simp only [getCol, hio, Option.map]
    congr 1
    exact map_getD_zipWith_set df.rows c hlen.symm
      (fun r hr => by rw [hwf r hr]; exact hi)
  | none =>
    simp only [getCol, idxOf?_append_self hio, Option.map]
    congr 1
    exact map_getD_zipWith_append df.rows c hlen.symm hwf

theorem colD_length_of_mem {df : DF} {name : String} (h : name ∈ df.cols) :
    (colD df name).length = df.rows.length := by
  obtain ⟨i, hi⟩ := idxOf?_isSome_of_mem h
  simp [colD, getCol, hi]

/- ### Pointwise lemmas used by the normalization claims -/

theorem map_congr_mem {α β : Type} {f g : α → β} :
    ∀ {l : List α}, (∀ a ∈ l, f a = g a) → l.map f = l.map g := by
  intro l
  induction l with
  | nil => intro h; rfl
  | cons a l ih =>
    intro h
    simp only [List.map_cons]
    rw [h a (List.mem_cons_self a l), ih (fun b hb => h b (List.mem_cons_of_mem a hb))]

theorem getD_map_nan {f : PFloat → PFloat} (hf : f .nan = .nan) :
    ∀ (l : List PFloat) (i : ℕ), l.getD i .nan = .nan →
      (l.map f).getD i .nan = .nan := by
  intro l
  induction l with
  | nil => intro i h; simp
  | cons v vs ih =>
    intro i h
    cases i with
    | zero =>
      simp only [List.map_cons, List.getD_cons_zero] at h ⊢
      rw [h, hf]
    | succ n =>
      simp only [List.map_cons, List.getD_cons_succ] at h ⊢
      exact ih n h

/-- Summing the finite entries of the normalized column: each finite
average `q` contributes `q / T * 100`. -/
theorem finVals_sum_norm {T : ℚ} (hT : T ≠ 0) :
    ∀ (vs : List PFloat), FinOrNaN vs →
      (finVals (vs.map fun v => pmul (pdiv v (.val T)) (.val 100))).sum
        = (finVals vs).sum * 100 / T := by
  intro vs
  induction vs with
  | nil => intro h; simp
  | cons v vs ih =>
    intro h
    rcases h v (List.mem_cons_self v vs) with rfl | hfin
    · simp only [List.map_cons, pdiv_nan_left, pmul_nan_left, finVals_cons_nan]
      exact ih h.tail
    · obtain ⟨q, rfl⟩ := finite_iff.mp hfin
      have hdv : pdiv (PFloat.val q) (.val T) = .val (q / T) := by
        rw [pdiv_val, if_neg hT]
      simp only [List.map_cons, hdv, pmul_val, finVals_cons_val, List.sum_cons]
      rw [ih h.tail]
      field_simp
      ring

/-- The float values of the column written by `dfWithNormalized`. -/
theorem normFloats_dfWithNormalized {df : DF} (hwf : DF.WF df)
    (hmem : "average_probability" ∈ df.cols) :
    normFloats (dfWithNormalized df)
      = (avgFloats df).map fun v => pmul (pdiv v (psum (avgFloats df))) (.val 100) := by
  have hget : getCol (dfWithNormalized df) "normalized_probability"
      = some ((avgFloats df).map fun v =>
          .f (pmul (pdiv v (psum (avgFloats df))) (.val 100))) := by
    simp only [dfWithNormalized]
    exact getCol_setCol hwf (by simp [avgFloats, colD_length_of_mem hmem])
  simp only [normFloats, colD, hget, Option.getD_some, List.map_map]
  rfl

/- ### C3: the skipna row mean -/

/-- C3 — `calculate_average_probabilities` sets, for every row, the
average to the arithmetic mean of the row's defined (non-NaN) values in
the probability columns — NaN entries are excluded from both the sum
and the count — and to NaN (not zero) when every entry of the row is
NaN.  The hypotheses fix the pipeline stage the claim speaks about: the
derived columns have not been added yet, so the `_probability`-suffixed
columns are exactly the per-provider probability columns, and their
cells are floats (finite or NaN), as `process_betting_odds` produces
them. -/
theorem C3_average_mean_skipna :
    ∀ (p : Processor) (df : DF), p.df = some df → DF.WF df →
      "average_probability" ∉ df.cols → "normalized_probability" ∉ df.cols →
      (∀ r ∈ df.rows, FinOrNaN (rowProbFloats df r)) →
      ∃ p2 dfA, calculate_average_probabilities p = .ok (p2, dfA) ∧
        getCol dfA "average_probability" = some (df.rows.map fun r =>
          if finVals (rowProbFloats df r) = [] then Cell.f PFloat.nan
          else Cell.f (.val ((finVals (rowProbFloats df r)).sum
            / (finVals (rowProbFloats df r)).length))) := by
  intro p df hdf hwf _hA _hN hfin
  simp only [calculate_average_probabilities, hdf]
  refine ⟨_, _, rfl, ?_⟩
  simp only [dfWithAverage]
  rw [getCol_setCol hwf (by simp)]
  congr 1
  apply map_congr_mem
  intro r hr
  rw [pmean_fin (hfin r hr)]
  by_cases hnil : finVals (rowProbFloats df r) = [] <;> simp [hnil]

/-- A processed table for the C3 witness: one row with two defined
provider probabilities and one NaN, one row with only NaN. -/
def dfC3 : DF :=
  ⟨["Driver", "P1_probability", "P2_probability", "P3_probability"],
   [[.str "Max Verstappen", .f (.val (2 / 5)), .f (.val (1 / 2)), .f .nan],
    [.str "Lewis Hamilton", .f .nan, .f .nan, .f .nan]]⟩

/-- A processor with that table loaded. -/
def pC3 : Processor := ⟨"data", 2025, some dfC3, []⟩

/-- Witness for C3 at a concrete table. -/
theorem C3_witness :
    ∃ p2 dfA, calculate_average_probabilities pC3 = .ok (p2, dfA) ∧
      getCol dfA "average_probability" = some (dfC3.rows.map fun r =>
        if finVals (rowProbFloats dfC3 r) = [] then Cell.f PFloat.nan
        else Cell.f (.val ((finVals (rowProbFloats dfC3 r)).sum
          / (finVals (rowProbFloats dfC3 r)).length))) :=
  C3_average_mean_skipna pC3 dfC3 rfl (by decide) (by decide) (by decide) (by decide)

/- ### C2: the normalized column sums to 100 -/

/-- C2 — after `normalize_probabilities`, on any well-formed table whose
`average_probability` column holds floats with at least one defined
(non-NaN) entry and a nonzero sum of defined entries, the defined
normalized probabilities over all rows sum to exactly 100 (exactly,
in the rational model; "within floating tolerance" in binary floats). -/
theorem C2_normalized_sum_100 :
    ∀ (p : Processor) (df : DF), p.df = some df → DF.WF df →
      "average_probability" ∈ df.cols → FinOrNaN (avgFloats df) →
      finVals (avgFloats df) ≠ [] → (finVals (avgFloats df)).sum ≠ 0 →
      ∃ p2 df2, normalize_probabilities p = .ok (p2, df2) ∧
        (finVals (normFloats df2)).sum = 100 := by
  intro p df hdf hwf hmem hfin _hne hsum
  simp only [normalize_probabilities, hdf, if_pos hmem]
  refine ⟨_, _, rfl, ?_⟩
  rw [normFloats_dfWithNormalized hwf hmem, psum_fin hfin,
    finVals_sum_norm hsum (avgFloats df) hfin, mul_comm, mul_div_assoc,
    div_self hsum, mul_one]

/-- A table with a mixed average column for the C2 witness: two defined
averages (60 and 40) and one NaN. -/
def dfC2 : DF :=
  ⟨["Driver", "average_probability"],
   [[.str "Max Verstappen", .f (.val 60)],
    [.str "Lewis Hamilton", .f (.val 40)],
    [.str "Lando Norris", .f .nan]]⟩

/-- A processor with that table loaded. -/
def pC2 : Processor := ⟨"data", 2025, some dfC2, []⟩

/-- Witness for C2 at a concrete table. -/
theorem C2_witness :
    ∃ p2 df2, normalize_probabilities pC2 = .ok (p2, df2) ∧
      (finVals (normFloats df2)).sum = 100 :=
  C2_normalized_sum_100 pC2 dfC2 rfl (by decide) (by decide) (by decide) (by decide)
    (by
      have h : finVals (avgFloats dfC2) = [60, 40] := by decide
      rw [h]
      norm_num [List.sum_cons, List.sum_nil])

/- ### C8: undefined rows and the zero-total edge case -/

/-- C8 — in `normalize_probabilities`, on any well-formed table whose
`average_probability` column holds floats: the function returns without
raising; the denominator of the normalization is the sum of the defined
(non-NaN) averages only (first equation); every row whose average is NaN
keeps a NaN normalized probability; and when every average is NaN or
zero (zero total: all zero, or no defined rows), every row's normalized
probability is NaN, not zero. -/
theorem C8_normalize_undefined_and_zero_total :
    ∀ (p : Processor) (df : DF), p.df = some df → DF.WF df →
      "average_probability" ∈ df.cols → FinOrNaN (avgFloats df) →
      ∃ p2 df2, normalize_probabilities p = .ok (p2, df2) ∧
        normFloats df2 = (avgFloats df).map (fun v =>
          pmul (pdiv v (.val (finVals (avgFloats df)).sum)) (.val 100)) ∧
        (∀ i : ℕ, (avgFloats df).getD i .nan = .nan →
          (normFloats df2).getD i .nan = .nan) ∧
        ((∀ v ∈ avgFloats df, v = .nan ∨ v = .val 0) →
          ∀ w ∈ normFloats df2, w = .nan) := by
  intro p df hdf hwf hmem hfin
  simp only [normalize_probabilities, hdf, if_pos hmem]
  have hnf : normFloats (dfWithNormalized df) = (avgFloats df).map (fun v =>
      pmul (pdiv v (.val (finVals (avgFloats df)).sum)) (.val 100)) := by
    rw [normFloats_dfWithNormalized hwf hmem, psum_fin hfin]
  refine ⟨_, _, rfl, hnf, ?_, ?_⟩
  · intro i hi
    rw [hnf]
    exact getD_map_nan (by simp) (avgFloats df) i hi
  · intro hall w hw
    rw [hnf] at hw
    obtain ⟨v, hv, rfl⟩ := List.mem_map.mp hw
    have hT : (finVals (avgFloats df)).sum = 0 := by
      apply List.sum_eq_zero
      intro q hq
      obtain ⟨v2, hv2, hval⟩ := List.mem_filterMap.mp hq
      rcases hall v2 hv2 with rfl | h0
      · cases hval
      · rw [h0] at hval
        cases hval
        rfl
    rw [hT]
    rcases hall v hv with rfl | h0
    · simp
    · rw [h0, pdiv_val]
      simp

/-- A table whose averages are all NaN or zero. -/
def dfC8 : DF :=
  ⟨["Driver", "average_probability"],
   [[.str "Max Verstappen", .f (.val 0)],
    [.str "Lewis Hamilton", .f .nan]]⟩

/-- A processor with that table loaded. -/
def pC8 : Processor := ⟨"data", 2025, some dfC8, []⟩

/-- Witness for C8 at a concrete table with a zero total. -/
theorem C8_witness :
    ∃ p2 df2, normalize_probabilities pC8 = .ok (p2, df2) ∧
      normFloats df2 = (avgFloats dfC8).map (fun v =>
        pmul (pdiv v (.val (finVals (avgFloats dfC8)).sum)) (.val 100)) ∧
      (∀ i : ℕ, (avgFloats dfC8).getD i .nan = .nan →
        (normFloats df2).getD i .nan = .nan) ∧
      ((∀ v ∈ avgFloats dfC8, v = .nan ∨ v = .val 0) →
        ∀ w ∈ normFloats df2, w = .nan) :=
  C8_normalize_undefined_and_zero_total pC8 dfC8 rfl (by decide) (by decide) (by decide)

/-- Witness for C10 at the scraper's example odds string `"1/16"`. -/
theorem C10_witness :
    odds_to_probability (Cell.str ("1" ++ "/" ++ "16")) = PFloat.nan ∧
    PFloat.nan ≠ PFloat.val (16 / (1 + 16)) :=
  ⟨C10_fractional_string_is_nan.1 "1" "16",
   C10_fractional_string_is_nan.2.2 1 16⟩

end F1Odds
